import Mathlib

/-
Verification of the pg_extension repository against its specification.

Go strings are modelled as lists of characters (the sources only handle
ASCII data, where byte order and codepoint order coincide).  Machine
integers are modelled as Nat or Int with explicit reductions modulo 2^16
where the Go code converts to uint16.  Fallible operations return Except
or Option; a Go runtime panic is modelled as an explicit error value.
-/

namespace PgExt

/-! ## Go string primitives over List Char -/

/-- Mirrors strings.HasSuffix. -/
def hasSuffixCL (s suf : List Char) : Bool :=
  suf.isSuffixOf s

/-- Mirrors strings.TrimSuffix: drop the suffix when present, else return the
string unchanged. -/
def trimSuffixCL (s suf : List Char) : List Char :=
  if hasSuffixCL s suf then s.take (s.length - suf.length) else s

/-- Mirrors strings.Index: index of the first occurrence of sub in s, or none
where Go returns -1. -/
def strIndex : List Char → List Char → Option Nat
  | [], sub => if sub.isPrefixOf ([] : List Char) then some 0 else none
  | c :: t, sub =>
    if sub.isPrefixOf (c :: t) then some 0 else (strIndex t sub).map (· + 1)

/-- Mirrors strings.Count(s, "--"): the number of non-overlapping occurrences
of two consecutive dashes, scanning left to right. -/
def countDashDash : List Char → Nat
  | '-' :: '-' :: rest => countDashDash rest + 1
  | _ :: rest => countDashDash rest
  | [] => 0

/-- Decimal value of a digit list. -/
def digitsToNat (ds : List Char) : Nat :=
  ds.foldl (fun a c => a * 10 + (c.toNat - 48)) 0

/-- Mirrors strconv.Atoi: an optional sign followed by at least one ASCII
digit, rejecting anything else; values outside the int64 range produce an
error (ErrRange), which the callers treat the same as a syntax error. -/
def goAtoi (s : List Char) : Option Int :=
  let signDigits : Int × List Char :=
    match s with
    | '+' :: rest => (1, rest)
    | '-' :: rest => (-1, rest)
    | _ => (1, s)
  let sign := signDigits.1
  let ds := signDigits.2
  if ds.isEmpty then none
  else if ds.all (fun c => '0' ≤ c && c ≤ '9') then
    let v : Int := sign * (digitsToNat ds : Nat)
    if -(2 ^ 63) ≤ v ∧ v < 2 ^ 63 then some v else none
  else none

/-! ## Datum and pointer conversion (unnamed/part_000) -/

/-- A Go typed pointer: either nil or a nonzero address.  A non-nil Go
pointer always has a nonzero address, which is what lets the code use the
zero Datum as the null sentinel. -/
inductive GoPtr : Type where
  | null : GoPtr
  | addr : (n : Nat) → n ≠ 0 → GoPtr

/-- Mirrors FromDatum: a zero Datum maps to the nil pointer and is never
reinterpreted as an address; any other Datum is reinterpreted as a typed
pointer to that address. -/
def FromDatum (d : Nat) : GoPtr :=
  if h : d = 0 then GoPtr.null else GoPtr.addr d h

/-- Mirrors ToDatum: the nil pointer maps to the zero Datum, any other
pointer to its address. -/
def ToDatum : GoPtr → Nat
  | GoPtr.null => 0
  | GoPtr.addr n _ => n

/-! ## Windows symbol lookup (library_loader_windows.go) -/

/-- The body of the decoration loop in winLib.Lookup: starting at the given
byte count and stepping by 4 for the given number of iterations, append the
stdcall decorated forms of the symbol.  The source loop runs bytes = 4, 8,
..., 64, which is 16 iterations starting at 4. -/
def decosFrom (sym : String) : Nat → Nat → List String
  | _, 0 => []
  | bytes, k + 1 =>
      (sym ++ ("@" ++ Nat.repr bytes)) ::
      (("_" ++ sym) ++ ("@" ++ Nat.repr bytes)) ::
      decosFrom sym (bytes + 4) k

/-- The candidate list built by winLib.Lookup, in source order: the bare
name, the underscore form, both at-zero forms, then the decorated forms for
every multiple of 4 from 4 through 64. -/
def winCandidates (sym : String) : List String :=
  [sym, "_" ++ sym, sym ++ "@0", "_" ++ sym ++ "@0"] ++ decosFrom sym 4 16

/-- Mirrors winLib.Lookup: try GetProcAddress on each candidate in order and
return the first hit; report the symbol as not found only after every
candidate failed. -/
def winLookup (getProc : String → Option Nat) (sym : String) : Except String Nat :=
  match (winCandidates sym).findSome? getProc with
  | some p => Except.ok p
  | none => Except.error ("symbol " ++ sym ++ " not found")

/-- Candidate order exactly as the spec sentence reads: the decorated
candidates first and the bare name last.  Declared only to compare the spec
sentence against the code. -/
def specOrderCandidates (sym : String) : List String :=
  ["_" ++ sym, sym ++ "@0", "_" ++ sym ++ "@0"] ++ decosFrom sym 4 16 ++ [sym]

/-- Lookup following the candidate order of the spec sentence. -/
def specOrderLookup (getProc : String → Option Nat) (sym : String) : Except String Nat :=
  match (specOrderCandidates sym).findSome? getProc with
  | some p => Except.ok p
  | none => Except.error ("symbol " ++ sym ++ " not found")

/-! ## One-time bootstrap (unnamed/part_001 and library_loader_windows.go) -/

/-- The state of a sync.Once guard. -/
structure OnceState where
  done : Bool
deriving DecidableEq

/-- Result of one loadLibraryInternal call. -/
inductive LoadOutcome where
  | panicked : String → LoadOutcome
  | failed : String → LoadOutcome
  | loaded : Nat → LoadOutcome
deriving DecidableEq

/-- Environment for the Linux loader: whether runtime.Caller succeeds,
whether dlopen of the companion pg_extension.so returns a handle, the
dlopen table for extension paths, and the dlerror text. -/
structure UnixEnv where
  callerOk : Bool
  companionOk : Bool
  dlopen : String → Option Nat
  dlerror : String

/-- The preload body run under preloadStub.Do in the Linux
loadLibraryInternal: it panics when the caller location cannot be found or
when the companion library cannot be opened. -/
def unixBootstrap (env : UnixEnv) : Option String :=
  if !env.callerOk then some "cannot find the directory where this file exists"
  else if !env.companionOk then some "cannot find the pg_extension library"
  else none

/-- The dlopen step at the end of the Linux loadLibraryInternal. -/
def unixOpenLib (env : UnixEnv) (path : String) : LoadOutcome :=
  match env.dlopen path with
  | some h => LoadOutcome.loaded h
  | none =>
    LoadOutcome.failed ("error while loading extension `" ++ path ++ "`\n" ++ env.dlerror)

/-- Mirrors the Linux loadLibraryInternal.  Returns the new Once state,
whether the preload body ran during this call, and the outcome.  sync.Once
marks itself done even when the guarded body panics, so the done flag is
set in the panic branch as well. -/
def loadLibraryInternalUnix (env : UnixEnv) (st : OnceState) (path : String) :
    OnceState × Bool × LoadOutcome :=
  if st.done then (st, false, unixOpenLib env path)
  else
    match unixBootstrap env with
    | some msg => (⟨true⟩, true, LoadOutcome.panicked msg)
    | none => (⟨true⟩, true, unixOpenLib env path)

/-- Environment for the Windows loader: whether the directory setup steps
succeed (runtime.Caller, UTF16PtrFromString and the kernel32 lookups, all of
which panic on failure), whether the companion pg_extension.dll loads (the
source discards this error), and the LoadLibrary table for extension
paths. -/
structure WinEnv where
  setupOk : Bool
  companionOk : Bool
  loadLib : String → Option Nat

/-- The LoadLibrary step at the end of the Windows loadLibraryInternal. -/
def winOpenLib (env : WinEnv) (path : String) : LoadOutcome :=
  match env.loadLib path with
  | some h => LoadOutcome.loaded h
  | none => LoadOutcome.failed ("LoadLibrary failed: " ++ path)

/-- Mirrors the Windows loadLibraryInternal.  The companion library load
result is discarded by the source, so the outcome does not depend on
companionOk; only the directory setup steps can panic. -/
def loadLibraryInternalWin (env : WinEnv) (st : OnceState) (path : String) :
    OnceState × Bool × LoadOutcome :=
  if st.done then (st, false, winOpenLib env path)
  else if !env.setupOk then
    (⟨true⟩, true, LoadOutcome.panicked "cannot find the directory where this file exists")
  else (⟨true⟩, true, winOpenLib env path)

/-- Run a sequence of Linux loads, threading the Once state, recording for
each call whether the preload body ran and what the call returned. -/
def runLoadsUnix (env : UnixEnv) : OnceState → List String → List (Bool × LoadOutcome)
  | _, [] => []
  | st, p :: ps =>
    let r := loadLibraryInternalUnix env st p
    (r.2.1, r.2.2) :: runLoadsUnix env r.1 ps

/-- Run a sequence of Windows loads, threading the Once state. -/
def runLoadsWin (env : WinEnv) : OnceState → List String → List (Bool × LoadOutcome)
  | _, [] => []
  | st, p :: ps =>
    let r := loadLibraryInternalWin env st p
    (r.2.1, r.2.2) :: runLoadsWin env r.1 ps

/-! ## Error reporting triplet (library/errors.c) -/

/-- Process-wide error state: the logical contents of the last_error buffer
(a C string of at most 511 characters) and the stderr stream modelled as a
list of emitted lines. -/
structure ErrState where
  lastError : List Char
  stderrLog : List (List Char)
deriving DecidableEq

/-- Mirrors errstart: reset the stored message to empty and return 1.  The
level, file, line, function and domain arguments are ignored by the
source. -/
def errstart (_elevel : Int) (_file : List Char) (_line : Int) (_func : List Char)
    (_domain : List Char) (st : ErrState) : ErrState × Int :=
  ({ st with lastError := [] }, 1)

/-- Mirrors errmsg: vsnprintf the formatted message into the 512-byte
buffer, truncating to 511 characters, and return 0.  Formatting itself is
not modelled; the argument is the already formatted message. -/
def errmsg (msg : List Char) (st : ErrState) : ErrState × Int :=
  ({ st with lastError := msg.take 511 }, 0)

/-- The fixed prefix errfinish prints before the stored message. -/
def errBanner : List Char := "Postgres ERROR: ".data

/-- Mirrors errfinish: when a message is stored, print it to stderr; the
stored message is left in place.  Returns 0. -/
def errfinish (st : ErrState) : ErrState × Int :=
  (if st.lastError.isEmpty then st
   else { st with stderrLog := st.stderrLog ++ [errBanner ++ st.lastError ++ ['\n']] }, 0)

/-! ## Call adapter (unnamed/part_002, DirectFunctionCall1Coll) -/

/-- Modelled from the spec: the layout of FunctionCallInfoBaseData and the
size constant SZ_FCINFO come from library/exports.h, which is not among the
sources; per the spec the CallFrame holds a null flag, a collation tag, an
argument count and a fixed-capacity array of (Datum value, is-null flag)
pairs, and SZ_FCINFO covers the whole record including every argument
slot. -/
structure CallFrame where
  isnull : Bool
  fncollation : Nat
  nargs : Int
  args : List (Nat × Bool)
deriving DecidableEq

/-- The frame as C.memset leaves it: every byte zero, so the flags are
false, the numbers zero, and all cap argument slots hold (0, false). -/
def zeroFrame (cap : Nat) : CallFrame :=
  { isnull := false, fncollation := 0, nargs := 0, args := List.replicate cap (0, false) }

/-- The field assignments DirectFunctionCall1Coll performs on the freshly
zeroed frame, in source order: isnull false, fncollation, nargs 1, args[0]
value and null flag. -/
def setupFrame (cap collation arg1 : Nat) : CallFrame :=
  let fc0 := zeroFrame cap
  { fc0 with isnull := false, fncollation := collation, nargs := 1,
             args := fc0.args.set 0 (arg1, false) }

/-- Heap events of one adapter invocation, with frames identified by
allocation number. -/
inductive FrameEvent where
  | alloc : Nat → FrameEvent
  | invoke : Nat → CallFrame → FrameEvent
  | free : Nat → FrameEvent
deriving DecidableEq

/-- The frame id an event refers to. -/
def frameIdOf : FrameEvent → Nat
  | FrameEvent.alloc n => n
  | FrameEvent.invoke n _ => n
  | FrameEvent.free n => n

/-- Mirrors DirectFunctionCall1Coll: malloc a frame (returning Datum 0 when
malloc fails), zero the whole SZ_FCINFO region, set the fields, invoke the
callee through the frame, and free the frame before returning.  Returns the
result Datum, the next fresh allocation id, and the heap event trace of
this call.  The callee returns the possibly mutated frame plus its result
Datum. -/
def DirectFunctionCall1Coll (cap : Nat) (allocOk : Bool)
    (callee : CallFrame → CallFrame × Nat) (collation arg1 nextId : Nat) :
    Nat × Nat × List FrameEvent :=
  if !allocOk then (0, nextId, [])
  else
    let fc1 := setupFrame cap collation arg1
    let result := (callee fc1).2
    (result, nextId + 1,
     [FrameEvent.alloc nextId, FrameEvent.invoke nextId fc1, FrameEvent.free nextId])

/-! ## Registration file versions (extension_file.go, sqlFileToVersions) -/

/-- The characters of ".sql". -/
def dotSql : List Char := ['.', 's', 'q', 'l']

/-- The characters of the double dash separator. -/
def dashDash : List Char := ['-', '-']

/-- Go conversion of int to uint16: reduction modulo 2^16. -/
def toU16 (i : Int) : Nat := (i % 65536).toNat

/-- The packed version used by sqlFileToVersions: the major shifted left by
8 bits plus the minor, all in uint16 arithmetic. -/
def encodeVer (major minor : Int) : Nat := (toU16 major * 256 + toU16 minor) % 65536

/-- The four integers extracted from a version subsection before packing:
from-major, from-minor, to-major, to-minor. -/
structure VerQuad where
  fromMajor : Int
  fromMinor : Int
  toMajor : Int
  toMinor : Int
deriving DecidableEq

/-- The versionSubsection value inside sqlFileToVersions: the file name
sliced past the extension name and the double dash, with the ".sql" suffix
trimmed. -/
def versionSub (name f : List Char) : List Char :=
  trimSuffixCL (f.drop (name.length + 2)) dotSql

/-- The parsing part of sqlFileToVersions: split the subsection at the
double dash when present (a single version serves as both from and to),
split each part at its first dot, and Atoi all four components; any missing
dot or failed Atoi is an error return of the zero pair in the source,
modelled as none here. -/
def quadOfSubsection (sub : List Char) : Option VerQuad :=
  let fromTo : List Char × List Char :=
    match strIndex sub dashDash with
    | none => (sub, sub)
    | some i => (sub.take i, sub.drop (i + 2))
  let fr := fromTo.1
  let toPart := fromTo.2
  match strIndex fr ['.'], strIndex toPart ['.'] with
  | some fs, some ts =>
    match goAtoi (fr.take fs), goAtoi (fr.drop (fs + 1)),
          goAtoi (toPart.take ts), goAtoi (toPart.drop (ts + 1)) with
    | some a, some b, some c, some d =>
      some { fromMajor := a, fromMinor := b, toMajor := c, toMinor := d }
    | _, _, _, _ => none
  | _, _ => none

/-- Mirrors sqlFileToVersions.  A name without the ".sql" suffix returns the
zero pair before any slicing.  Otherwise the source slices
sqlFileName[len(name)+2:], which panics when the file name is shorter than
that index; the panic is modelled as an error value.  On the normal path
the parsed quadruple is packed into the two uint16 values, with every parse
failure collapsing to the zero pair. -/
def sqlFileToVersions (name f : List Char) : Except Unit (Nat × Nat) :=
  if !(hasSuffixCL f dotSql) then Except.ok (0, 0)
  else if name.length + 2 ≤ f.length then
    Except.ok (match quadOfSubsection (versionSub name f) with
      | none => (0, 0)
      | some q => (encodeVer q.fromMajor q.fromMinor, encodeVer q.toMajor q.toMinor))
  else Except.error ()

/-- The quadruple a file name decodes to on the non-panicking, fully parsed
path; none when the name lacks the suffix, would panic, or fails to
parse. -/
def sqlFileToQuad (name f : List Char) : Option VerQuad :=
  if hasSuffixCL f dotSql = true ∧ name.length + 2 ≤ f.length then
    quadOfSubsection (versionSub name f)
  else none

/-- Mirrors cmp.Compare on uint16 values (here Nat): -1, 0 or +1 as the Go
source computes them, rendered as an Ordering. -/
def cmpNat (a b : Nat) : Ordering :=
  if a < b then Ordering.lt else if a = b then Ordering.eq else Ordering.gt

/-- Mirrors cmp.Or of two comparison results: the first one when it is
nonzero, else the second. -/
def cmpOr (a b : Ordering) : Ordering :=
  match a with
  | Ordering.eq => b
  | x => x

/-- The comparator LoadExtensions passes to slices.SortFunc: compare the
packed from versions, then the packed to versions.  Propagates the panic of
either decode. -/
def sqlFileCmp (name a b : List Char) : Except Unit Ordering := do
  let va ← sqlFileToVersions name a
  let vb ← sqlFileToVersions name b
  pure (cmpOr (cmpNat va.1 vb.1) (cmpNat va.2 vb.2))

/-- Strict lexicographic order on the version quadruple
(from-major, from-minor, to-major, to-minor). -/
def quadLt (p q : VerQuad) : Prop :=
  p.fromMajor < q.fromMajor ∨
    (p.fromMajor = q.fromMajor ∧
      (p.fromMinor < q.fromMinor ∨
        (p.fromMinor = q.fromMinor ∧
          (p.toMajor < q.toMajor ∨
            (p.toMajor = q.toMajor ∧ p.toMinor < q.toMinor)))))

instance (p q : VerQuad) : Decidable (quadLt p q) := by
  unfold quadLt
  infer_instance

/-- Every component of the quadruple is a byte value. -/
def inByteRange (q : VerQuad) : Prop :=
  0 ≤ q.fromMajor ∧ q.fromMajor < 256 ∧ 0 ≤ q.fromMinor ∧ q.fromMinor < 256 ∧
  0 ≤ q.toMajor ∧ q.toMajor < 256 ∧ 0 ≤ q.toMinor ∧ q.toMinor < 256

instance (q : VerQuad) : Decidable (inByteRange q) := by
  unfold inByteRange
  infer_instance

/-! ## Migration pruning (extension_file.go, LoadExtensions) -/

/-- True when a file name contains exactly one double dash: a base
installation file rather than a migration file. -/
def isNonMigration (s : List Char) : Bool := countDashDash s == 1

/-- The suffix of the list starting at its first non-migration entry. -/
def suffixAtNonMig : List (List Char) → Option (List (List Char))
  | [] => none
  | y :: ys => if isNonMigration y then some (y :: ys) else suffixAtNonMig ys

/-- One pass of the inner for loop: find the first index i with 1 le i
whose entry is non-migration and slice the list from there; none when no
such index exists. -/
def sliceAtNonMig : List (List Char) → Option (List (List Char))
  | [] => none
  | _ :: rest => suffixAtNonMig rest

/-- The outer nextLoop loop, with fuel: repeat the slicing pass until it no
longer fires.  Each firing strictly shortens the list, so fuel larger than
the list length is never exhausted. -/
def pruneGo : Nat → List (List Char) → List (List Char)
  | 0, l => l
  | f + 1, l =>
    match sliceAtNonMig l with
    | none => l
    | some l2 => pruneGo f l2

/-- The migration-pruning step of LoadExtensions on a sorted file list. -/
def pruneMigrations (l : List (List Char)) : List (List Char) :=
  pruneGo (l.length + 1) l

/-- The suffix of the list starting at its last non-migration entry, or the
whole list when it has no non-migration entry.  This is the plain statement
the pruning loop actually computes. -/
def keepFromLastNonMig : List (List Char) → List (List Char)
  | [] => []
  | x :: xs => if xs.any isNonMigration then keepFromLastNonMig xs else x :: xs

/-! ## Regular expressions (extension_file.go, sqlFunctionCapture and
createFunctionStart)

Both patterns use only literals, single-character classes, alternation, a
greedy option, greedy repetition of a class, and lazy dot-star; this small
syntax is compiled here and matched with leftmost-first backtracking
semantics, which is what the Go regexp package guarantees for submatches.
The (?i) flag folds ASCII case (the files hold ASCII SQL); (?s) makes dot
match every character, so the dot class here is the constant true. -/

/-- The Go class for the whitespace escape: tab, newline, form feed,
carriage return and space. -/
def wsChar (c : Char) : Bool :=
  c == ' ' || c == '\t' || c == '\n' || c == '\x0c' || c == '\r'

/-- The dot under the (?s) flag: any character. -/
def anyChar (_ : Char) : Bool := true

/-- The single quote character. -/
def sq : Char := Char.ofNat 39

/-- Regular expression syntax actually used by the two source patterns:
case-insensitive literals, one-character classes, sequencing, alternation
in preference order, a greedy option, lazy and greedy star over a class,
and numbered capture groups. -/
inductive RE : Type where
  | lit : List Char → RE
  | cls : (Char → Bool) → RE
  | seq : RE → RE → RE
  | alt : RE → RE → RE
  | opt : RE → RE
  | starL : (Char → Bool) → RE
  | starG : (Char → Bool) → RE
  | grp : Nat → RE → RE

/-- Captured groups: group number paired with the captured characters. -/
abbrev Caps := List (Nat × List Char)

/-- Case-insensitive literal match: returns the consumed input prefix and
the rest. -/
def litMatch : List Char → List Char → Option (List Char × List Char)
  | [], s => some ([], s)
  | _ :: _, [] => none
  | c :: cs, d :: ds =>
    if c.toLower == d.toLower then
      match litMatch cs ds with
      | some (con, r) => some (d :: con, r)
      | none => none
    else none

/-- Lazy star over a character class, in continuation-passing style: prefer
consuming nothing, then on failure consume one matching character and
retry.  The continuation receives the consumed characters, the rest of the
input and the captures. -/
def lazyStarRun (p : Char → Bool) :
    List Char → Caps → (List Char → List Char → Caps → Option α) → Option α
  | [], cp, k => k [] [] cp
  | c :: rest, cp, k =>
    match k [] (c :: rest) cp with
    | some r => some r
    | none =>
      if p c then lazyStarRun p rest cp (fun con r2 cp2 => k (c :: con) r2 cp2)
      else none

/-- Greedy star over a character class: prefer consuming a matching
character, falling back to the empty match. -/
def greedyStarRun (p : Char → Bool) :
    List Char → Caps → (List Char → List Char → Caps → Option α) → Option α
  | [], cp, k => k [] [] cp
  | c :: rest, cp, k =>
    if p c then
      match greedyStarRun p rest cp (fun con r2 cp2 => k (c :: con) r2 cp2) with
      | some r => some r
      | none => k [] (c :: rest) cp
    else k [] (c :: rest) cp

/-- Backtracking matcher in continuation-passing style.  Alternatives and
repetition counts are tried in preference order and the first overall
success wins, which is exactly leftmost-first matching at a fixed start
position. -/
def reMatch : RE → List Char → Caps → (List Char → List Char → Caps → Option α) → Option α
  | RE.lit l, s, cp, k =>
    match litMatch l s with
    | some (con, r) => k con r cp
    | none => none
  | RE.cls p, s, cp, k =>
    match s with
    | [] => none
    | c :: r => if p c then k [c] r cp else none
  | RE.seq a b, s, cp, k =>
    reMatch a s cp (fun c1 r1 cp1 =>
      reMatch b r1 cp1 (fun c2 r2 cp2 => k (c1 ++ c2) r2 cp2))
  | RE.alt a b, s, cp, k =>
    match reMatch a s cp k with
    | some r => some r
    | none => reMatch b s cp k
  | RE.opt a, s, cp, k =>
    match reMatch a s cp k with
    | some r => some r
    | none => k [] s cp
  | RE.grp i a, s, cp, k =>
    reMatch a s cp (fun con r cp2 => k con r (cp2 ++ [(i, con)]))
  | RE.starL p, s, cp, k => lazyStarRun p s cp k
  | RE.starG p, s, cp, k => greedyStarRun p s cp k

/-- Literal from a string. -/
def litS (s : String) : RE := RE.lit s.data

/-- Greedy plus of the whitespace class. -/
def wsPlus : RE := RE.seq (RE.cls wsChar) (RE.starG wsChar)

/-- Greedy star of the whitespace class. -/
def wsStar : RE := RE.starG wsChar

/-- Lazy dot-star. -/
def dotStarL : RE := RE.starL anyChar

/-- The optional OR REPLACE part. -/
def orReplaceOpt : RE :=
  RE.opt (RE.seq (litS "or") (RE.seq wsPlus (RE.seq (litS "replace") wsPlus)))

/-- Sequence a list of expressions. -/
def seqList : List RE → RE
  | [] => RE.lit []
  | [r] => r
  | r :: rs => RE.seq r (seqList rs)

/-- Compilation of createFunctionStart: the CREATE, optional OR REPLACE,
FUNCTION prefix. -/
def createFunctionStartRE : RE :=
  seqList [litS "create", wsPlus, orReplaceOpt, litS "function"]

/-- The single quote as a literal expression. -/
def quoteRE : RE := RE.lit [sq]

/-- First alternative of the sqlFunctionCapture tail: LANGUAGE C before the
AS clause, with the C symbol captured as group 2. -/
def sqlCaptureAlt1 : RE :=
  seqList [dotStarL, litS "language c", dotStarL, litS "as", wsPlus,
           quoteRE, dotStarL, quoteRE, wsStar, litS ",", wsStar,
           quoteRE, RE.grp 2 dotStarL, quoteRE, dotStarL, litS ";"]

/-- Second alternative: the AS clause before LANGUAGE C, with the C symbol
captured as group 3. -/
def sqlCaptureAlt2 : RE :=
  seqList [dotStarL, litS "as", wsPlus, quoteRE, dotStarL, quoteRE, wsStar,
           litS ",", wsStar, quoteRE, RE.grp 3 dotStarL, quoteRE,
           dotStarL, litS "language c", dotStarL, litS ";"]

/-- Third alternative: LANGUAGE C with no explicit symbol argument. -/
def sqlCaptureAlt3 : RE :=
  seqList [dotStarL, litS "language c", dotStarL, litS ";"]

/-- Compilation of sqlFunctionCapture, group 1 being the SQL-level function
name. -/
def sqlFunctionCaptureRE : RE :=
  seqList [litS "create", wsPlus, orReplaceOpt, litS "function", wsPlus,
           RE.grp 1 dotStarL, wsStar, litS "(", dotStarL, litS ")", wsPlus,
           RE.alt sqlCaptureAlt1 (RE.alt sqlCaptureAlt2 sqlCaptureAlt3)]

/-- Look a group up in the captures; a group that did not participate reads
as the empty string, as in the Go submatch slice. -/
def capsGet (cp : Caps) (i : Nat) : List Char :=
  match cp.find? (fun e => e.1 == i) with
  | some e => e.2
  | none => []

/-- Leftmost-first search: try an anchored match at each position from the
left and return the captures of the first success. -/
def reFind (pat : RE) : List Char → Option Caps
  | [] => reMatch pat [] [] (fun _ _ cp => some cp)
  | c :: t =>
    match reMatch pat (c :: t) [] (fun _ _ cp => some cp) with
    | some cp => some cp
    | none => reFind pat t

/-- Mirrors sqlFunctionCapture.FindStringSubmatch restricted to the three
groups the code reads: none when the pattern does not match, else the
(group 1, group 2, group 3) captures. -/
def findSubmatch (s : List Char) : Option (List Char × List Char × List Char) :=
  match reFind sqlFunctionCaptureRE s with
  | some cp => some (capsGet cp 1, capsGet cp 2, capsGet cp 3)
  | none => none

/-- Whether createFunctionStart matches at the start of the input. -/
def startsCF (s : List Char) : Bool :=
  (reMatch createFunctionStartRE s [] (fun _ _ _ => some ()) : Option Unit).isSome

/-- Mirrors createFunctionStart.FindStringIndex, keeping only the start
index the code uses: the leftmost position where the pattern matches. -/
def findStart : List Char → Option Nat
  | [] => if startsCF [] then some 0 else none
  | c :: t => if startsCF (c :: t) then some 0 else (findStart t).map (· + 1)

/-- Mirrors strings.IndexRune(s, the semicolon). -/
def idxSemi (s : List Char) : Option Nat := strIndex s [';']

/-- The name chosen from a submatch, in source order: group 2 when
nonempty, else group 3 when nonempty, else group 1. -/
def chooseName (g1 g2 g3 : List Char) : List Char :=
  if !g2.isEmpty then g2 else if !g3.isEmpty then g3 else g1

/-- The scanning loop of LoadSQLFunctionNames over one file, with fuel:
advance to the next CREATE FUNCTION start, bound the statement at the next
semicolon (stopping at end of file when there is none), run the capture
regex on the bounded statement, record the chosen name when it matched and
nothing when it did not, then nudge the input forward by the six characters
of CREATE and repeat.  Each iteration strictly shortens the input, so fuel
larger than the input length is never exhausted. -/
def scanGo : Nat → List Char → List (List Char)
  | 0, _ => []
  | fuel + 1, s =>
    match findStart s with
    | none => []
    | some i =>
      let t := s.drop i
      match idxSemi t with
      | none => []
      | some e =>
        let found :=
          match findSubmatch (t.take (e + 1)) with
          | none => []
          | some g => [chooseName g.1 g.2.1 g.2.2]
        found ++ scanGo fuel (t.drop 6)

/-- The names extracted from one registration file, in scan order. -/
def scanNames (s : List Char) : List (List Char) :=
  scanGo (s.length + 1) s

/-- Insertion into the funcNames map, modelled as a duplicate-free list in
insertion order. -/
def insertName (acc : List (List Char)) (n : List Char) : List (List Char) :=
  if n ∈ acc then acc else acc ++ [n]

/-- The funcNames key set accumulated across all registration files. -/
def collectNames (files : List (List Char)) : List (List Char) :=
  ((files.map scanNames).flatten).foldl insertName []

/-- Mirrors slices.Sorted(maps.Keys(funcNames)): the key set in ascending
lexicographic order. -/
def sortStr (l : List (List Char)) : List (List Char) :=
  l.insertionSort (· ≤ ·)

/-- Mirrors LoadSQLFunctionNames given the contents of the SQL files of the
extension: scan every file, accumulate the distinct names, and return them
sorted. -/
def loadSQLFunctionNames (files : List (List Char)) : List (List Char) :=
  sortStr (collectNames files)

/-- Lookup table used only by the counterexample for claim C1: the bare
symbol resolves to address 1 and its underscore-decorated form to
address 2. -/
def gpDemo : String → Option Nat :=
  fun n => if n = "f" then some 1 else if n = "_f" then some 2 else none

/-- Registration file declaring an explicit C symbol for its function. -/
def fileExplicit : List Char :=
  "create function foo(x) language c as ".data ++ [sq, 'l', sq, ',', sq] ++
  "c_foo".data ++ [sq, ';']

/-- Registration file whose declaration omits the explicit C symbol, so the
SQL-level name is used. -/
def fileDefault : List Char :=
  "create or replace function bar() returns uuid language c;".data

/-- Registration file whose first CREATE FUNCTION span has no full match
for the capture expression (no parameter list before the statement end),
followed by a well-formed declaration. -/
def fileIllFormed : List Char :=
  "create function ; create function bar() language c;".data

/-! ## Theorems -/

lemma findSome?_eq_some_split {α β} (f : α → Option β) (b : β) :
    ∀ l : List α, l.findSome? f = some b ↔
      ∃ l1 c l2, l = l1 ++ c :: l2 ∧ (∀ x ∈ l1, f x = none) ∧ f c = some b := by
  intro l
  induction l with
  | nil => simp [List.findSome?]
  | cons a t ih =>
    rw [List.findSome?_cons]
    cases h : f a with
    | some v =>
      simp only [Option.some.injEq]
      constructor
      · rintro rfl
        exact ⟨[], a, t, rfl, by simp, h⟩
      · rintro ⟨l1, c, l2, heq, hnone, hc⟩
        cases l1 with
        | nil =>
          simp only [List.nil_append, List.cons.injEq] at heq
          rw [heq.1] at h
          rw [h] at hc
          exact (Option.some.injEq _ _).mp hc
        | cons x xs =>
          simp only [List.cons_append, List.cons.injEq] at heq
          have := hnone a (by rw [heq.1]; exact List.mem_cons_self x xs)
          rw [this] at h
          cases h
    | none =>
      rw [ih]
      constructor
      · rintro ⟨l1, c, l2, heq, hnone, hc⟩
        refine ⟨a :: l1, c, l2, by simp [heq], ?_, hc⟩
        intro x hx
        rcases List.mem_cons.mp hx with rfl | hx
        · exact h
        · exact hnone x hx
      · rintro ⟨l1, c, l2, heq, hnone, hc⟩
        cases l1 with
        | nil =>
          simp only [List.nil_append, List.cons.injEq] at heq
          rw [heq.1] at h
          rw [h] at hc
          cases hc
        | cons x xs =>
          simp only [List.cons_append, List.cons.injEq] at heq
          exact ⟨xs, c, l2, heq.2, fun y hy => hnone y (List.mem_cons_of_mem x hy), hc⟩

lemma findSome?_eq_none_all {α β} (f : α → Option β) :
    ∀ l : List α, l.findSome? f = none ↔ ∀ x ∈ l, f x = none := by
  intro l
  induction l with
  | nil => simp [List.findSome?]
  | cons a t ih =>
    rw [List.findSome?_cons]
    cases h : f a with
    | some v => simp [h]
    | none => simp [h, ih]

/-- C1 (amended): on Windows, lookup attempts the bare name first and then
the enumerated decorated candidates (underscore prefix, the two at-zero
forms, then name at N and underscore name at N for every multiple of 4 from
4 through 64); it returns the image of the first candidate that resolves,
and reports the symbol as not found exactly when every candidate fails. -/
theorem C1_lookup_first_match (gp : String → Option Nat) (sym : String) (p : Nat) :
    (winLookup gp sym = Except.ok p ↔
      ∃ l1 c l2, winCandidates sym = l1 ++ c :: l2 ∧
        (∀ x ∈ l1, gp x = none) ∧ gp c = some p) ∧
    (winLookup gp sym = Except.error ("symbol " ++ sym ++ " not found") ↔
      ∀ c ∈ winCandidates sym, gp c = none) := by
  have hok : winLookup gp sym = Except.ok p ↔
      (winCandidates sym).findSome? gp = some p := by
    unfold winLookup
    cases h : (winCandidates sym).findSome? gp <;> simp
  have herr : winLookup gp sym = Except.error ("symbol " ++ sym ++ " not found") ↔
      (winCandidates sym).findSome? gp = none := by
    unfold winLookup
    cases h : (winCandidates sym).findSome? gp <;> simp
  exact ⟨hok.trans (findSome?_eq_some_split gp p _),
         herr.trans (findSome?_eq_none_all gp _)⟩

/-- C1 counterexample: with a table resolving both the bare name f (to 1)
and its decorated form _f (to 2), the code returns the bare name's address,
while the candidate order stated by the claim (decorated names before the
bare name) would return the decorated one; so decorated candidates are not
attempted before the bare name. -/
theorem C1_counterexample :
    winLookup gpDemo "f" = Except.ok 1 ∧
    specOrderLookup gpDemo "f" = Except.ok 2 ∧
    Except.ok (ε := String) 1 ≠ Except.ok 2 := by
  refine ⟨rfl, rfl, ?_⟩
  intro h
  cases h

/-- C9: pointer and Datum conversion round-trips and preserves the null
sentinel: FromDatum of ToDatum is the identity on typed pointers, the nil
pointer maps to the zero Datum, and the zero Datum maps back to the nil
pointer without being reinterpreted as an address. -/
theorem C9_datum_roundtrip :
    (∀ p : GoPtr, FromDatum (ToDatum p) = p) ∧
    ToDatum GoPtr.null = 0 ∧ FromDatum 0 = GoPtr.null := by
  refine ⟨?_, rfl, rfl⟩
  intro p
  cases p with
  | null => rfl
  | addr n h => simp [ToDatum, FromDatum, h]

/-- C7 (amended): the triplet accumulates a single most-recent message in
the process-wide slot; begin-error clears the slot, append-message stores
the truncated message, and finish-error emits it to the diagnostic stream
but leaves it stored; the slot becomes empty again only at the next
begin-error. -/
theorem C7_error_triplet (st : ErrState) (msg : List Char) (e l : Int)
    (f fn d : List Char) :
    ((errstart e f l fn d st).1).lastError = [] ∧
    ((errmsg msg (errstart e f l fn d st).1).1).lastError = msg.take 511 ∧
    ((errfinish (errmsg msg (errstart e f l fn d st).1).1).1).lastError = msg.take 511 ∧
    ((errfinish (errmsg msg (errstart e f l fn d st).1).1).1).stderrLog =
      st.stderrLog ++
        (if (msg.take 511).isEmpty then []
         else [errBanner ++ msg.take 511 ++ ['\n']]) ∧
    ((errstart e f l fn d
        (errfinish (errmsg msg (errstart e f l fn d st).1).1).1).1).lastError = [] := by
  unfold errstart errmsg errfinish
  by_cases h : (msg.take 511).isEmpty <;> simp [h]

/-- C7 counterexample: after a begin-error, append-message of the one
character x, and finish-error, the process-wide slot still holds x, so
finish-error does not leave the slot empty. -/
theorem C7_counterexample :
    ((errfinish (errmsg ['x'] (errstart 0 [] 0 [] [] ⟨[], []⟩).1).1).1).lastError = ['x'] ∧
    (['x'] : List Char) ≠ [] := by
  refine ⟨rfl, ?_⟩
  intro h
  cases h

lemma runLoadsUnix_done (env : UnixEnv) (ps : List String) :
    (runLoadsUnix env ⟨true⟩ ps).map Prod.fst = List.replicate ps.length false := by
  induction ps with
  | nil => rfl
  | cons p t ih => simp [runLoadsUnix, loadLibraryInternalUnix, List.replicate_succ, ih]

lemma runLoadsWin_done (env : WinEnv) (ps : List String) :
    (runLoadsWin env ⟨true⟩ ps).map Prod.fst = List.replicate ps.length false := by
  induction ps with
  | nil => rfl
  | cons p t ih => simp [runLoadsWin, loadLibraryInternalWin, List.replicate_succ, ih]

lemma loadUnix_fresh (env : UnixEnv) (p : String) :
    (loadLibraryInternalUnix env ⟨false⟩ p).1 = ⟨true⟩ ∧
    (loadLibraryInternalUnix env ⟨false⟩ p).2.1 = true := by
  unfold loadLibraryInternalUnix
  cases h : unixBootstrap env <;> simp

lemma loadWin_fresh (env : WinEnv) (p : String) :
    (loadLibraryInternalWin env ⟨false⟩ p).1 = ⟨true⟩ ∧
    (loadLibraryInternalWin env ⟨false⟩ p).2.1 = true := by
  unfold loadLibraryInternalWin
  cases h : env.setupOk <;> simp [h]

/-- C6 (amended): on both platforms the guarded preload body runs during
the first load call and is skipped by every later one; on Linux a preload
failure with an intact caller location panics the call, so the process
cannot proceed past it; on Windows the companion library load error is
discarded, so the call proceeds identically whether or not the companion
library loaded (only the directory setup steps panic there). -/
theorem C6_bootstrap_once (envU : UnixEnv) (envW : WinEnv) (paths : List String)
    (hne : paths ≠ []) :
    (runLoadsUnix envU ⟨false⟩ paths).map Prod.fst
        = true :: List.replicate (paths.length - 1) false ∧
    (runLoadsWin envW ⟨false⟩ paths).map Prod.fst
        = true :: List.replicate (paths.length - 1) false ∧
    (envU.callerOk = true → envU.companionOk = false →
      (runLoadsUnix envU ⟨false⟩ paths).head? =
        some (true, LoadOutcome.panicked "cannot find the pg_extension library")) ∧
    (∀ (c1 c2 : Bool) (ll : String → Option Nat) (p : String),
      loadLibraryInternalWin ⟨true, c1, ll⟩ ⟨false⟩ p =
      loadLibraryInternalWin ⟨true, c2, ll⟩ ⟨false⟩ p) := by
  cases paths with
  | nil => exact absurd rfl hne
  | cons p ps =>
    refine ⟨?_, ?_, ?_, ?_⟩
    · have hstep : runLoadsUnix envU ⟨false⟩ (p :: ps) =
          ((loadLibraryInternalUnix envU ⟨false⟩ p).2.1,
           (loadLibraryInternalUnix envU ⟨false⟩ p).2.2) ::
            runLoadsUnix envU (loadLibraryInternalUnix envU ⟨false⟩ p).1 ps := rfl
      rw [hstep, (loadUnix_fresh envU p).1]
      simp [(loadUnix_fresh envU p).2, runLoadsUnix_done]
    · have hstep : runLoadsWin envW ⟨false⟩ (p :: ps) =
          ((loadLibraryInternalWin envW ⟨false⟩ p).2.1,
           (loadLibraryInternalWin envW ⟨false⟩ p).2.2) ::
            runLoadsWin envW (loadLibraryInternalWin envW ⟨false⟩ p).1 ps := rfl
      rw [hstep, (loadWin_fresh envW p).1]
      simp [(loadWin_fresh envW p).2, runLoadsWin_done]
    · intro hc hcc
      have hb : unixBootstrap envU = some "cannot find the pg_extension library" := by
        unfold unixBootstrap
        rw [hc, hcc]
        rfl
      simp [runLoadsUnix, loadLibraryInternalUnix, hb]
    · intro c1 c2 ll q
      rfl

/-- C6 counterexample: in the Windows loader, a first-time load during
which the companion runtime library fails to load still proceeds and
returns the opened extension handle, because the source discards the
companion LoadLibrary error; so a failed bootstrap preload is not fatal
there. -/
theorem C6_counterexample :
    loadLibraryInternalWin ⟨true, false, fun _ => some 7⟩ ⟨false⟩ "ext.dll" =
      (⟨true⟩, true, LoadOutcome.loaded 7) ∧
    LoadOutcome.loaded 7 ≠
      LoadOutcome.panicked "cannot find the pg_extension library" := by
  refine ⟨rfl, ?_⟩
  intro h
  cases h

/-- C6 witness: a single Linux and Windows load from the fresh state runs
the preload body exactly once. -/
theorem C6_bootstrap_once_witness :
    (runLoadsUnix ⟨true, true, fun _ => some 1, ""⟩ ⟨false⟩ ["a"]).map Prod.fst
      = true :: List.replicate 0 false :=
  (C6_bootstrap_once ⟨true, true, fun _ => some 1, ""⟩ ⟨true, true, fun _ => some 1⟩
    ["a"] (by simp)).1

lemma getD_replicate_lt (c i : Nat) (x d : Nat × Bool) (h : i < c) :
    (List.replicate c x).getD i d = x := by
  induction c generalizing i with
  | zero => omega
  | succ n ih =>
    cases i with
    | zero => rfl
    | succ j =>
      rw [List.replicate_succ]
      simpa using ih j (by omega)

/-- C2: the single-argument direct-call adapter zero-fills the frame's
whole declared capacity and only then sets its fields, so the frame the
callee runs with has null flag false, argument count 1, the one argument in
slot 0, and zeroes in every other slot; the frame is allocated and freed
within the one invocation, and a subsequent invocation uses a frame that
shares no identity with it. -/
theorem C2_direct_call_frame (cap : Nat) (callee callee2 : CallFrame → CallFrame × Nat)
    (collation arg1 collation2 arg2 nid : Nat) (hcap : 1 ≤ cap) :
    (DirectFunctionCall1Coll cap true callee collation arg1 nid).2.2 =
      [FrameEvent.alloc nid, FrameEvent.invoke nid (setupFrame cap collation arg1),
       FrameEvent.free nid] ∧
    (DirectFunctionCall1Coll cap true callee collation arg1 nid).2.1 = nid + 1 ∧
    (DirectFunctionCall1Coll cap true callee collation arg1 nid).1 =
      (callee (setupFrame cap collation arg1)).2 ∧
    setupFrame cap collation arg1 =
      { zeroFrame cap with
        isnull := false
        fncollation := collation
        nargs := 1
        args := (zeroFrame cap).args.set 0 (arg1, false) } ∧
    (setupFrame cap collation arg1).isnull = false ∧
    (setupFrame cap collation arg1).fncollation = collation ∧
    (setupFrame cap collation arg1).nargs = 1 ∧
    (setupFrame cap collation arg1).args.length = cap ∧
    (setupFrame cap collation arg1).args.getD 0 (1, true) = (arg1, false) ∧
    (∀ i, 1 ≤ i → i < cap →
      (setupFrame cap collation arg1).args.getD i (1, true) = (0, false)) ∧
    (∀ e ∈ (DirectFunctionCall1Coll cap true callee2 collation2 arg2
              ((DirectFunctionCall1Coll cap true callee collation arg1 nid).2.1)).2.2,
      ∀ e2 ∈ (DirectFunctionCall1Coll cap true callee collation arg1 nid).2.2,
      frameIdOf e ≠ frameIdOf e2) := by
  obtain ⟨c, rfl⟩ : ∃ c, cap = c + 1 := ⟨cap - 1, by omega⟩
  refine ⟨rfl, rfl, rfl, rfl, rfl, rfl, rfl, by simp [setupFrame, zeroFrame], ?_, ?_, ?_⟩
  · simp [setupFrame, zeroFrame, List.replicate_succ]
  · intro i h1 h2
    obtain ⟨j, rfl⟩ : ∃ j, i = j + 1 := ⟨i - 1, by omega⟩
    simp only [setupFrame, zeroFrame, List.replicate_succ, List.set_cons_zero,
      List.getD_cons_succ]
    exact getD_replicate_lt c j _ _ (by omega)
  · intro e he e2 he2
    simp [DirectFunctionCall1Coll] at he he2
    have h1 : frameIdOf e = nid + 1 := by
      rcases he with rfl | rfl | rfl <;> rfl
    have h2 : frameIdOf e2 = nid := by
      rcases he2 with rfl | rfl | rfl <;> rfl
    omega

/-- C2 witness: the adapter with capacity 2 at concrete inputs. -/
theorem C2_direct_call_frame_witness :
    (DirectFunctionCall1Coll 2 true (fun fc => (fc, 5)) 9 7 0).2.2 =
      [FrameEvent.alloc 0, FrameEvent.invoke 0 (setupFrame 2 9 7),
       FrameEvent.free 0] :=
  (C2_direct_call_frame 2 (fun fc => (fc, 5)) (fun fc => (fc, 6)) 9 7 3 4 0
    (by omega)).1

/-! ### Migration pruning lemmas (C3) -/

lemma suffixAtNonMig_length : ∀ ys l2, suffixAtNonMig ys = some l2 → l2.length ≤ ys.length := by
  intro ys
  induction ys with
  | nil => intro l2 h; cases h
  | cons y t ih =>
    intro l2 h
    by_cases hy : isNonMigration y
    · simp [suffixAtNonMig, hy] at h
      simp [← h]
    · simp [suffixAtNonMig, hy] at h
      have := ih l2 h
      simp
      omega

lemma suffixAtNonMig_any : ∀ ys l2, suffixAtNonMig ys = some l2 →
    ys.any isNonMigration = true := by
  intro ys
  induction ys with
  | nil => intro l2 h; cases h
  | cons y t ih =>
    intro l2 h
    by_cases hy : isNonMigration y
    · simp [hy]
    · simp [suffixAtNonMig, hy] at h
      simp [ih l2 h, hy]

lemma suffixAtNonMig_none : ∀ ys, suffixAtNonMig ys = none →
    ys.any isNonMigration = false := by
  intro ys
  induction ys with
  | nil => intro _; rfl
  | cons y t ih =>
    intro h
    by_cases hy : isNonMigration y
    · simp [suffixAtNonMig, hy] at h
    · simp [suffixAtNonMig, hy] at h
      simp [hy, ih h]

lemma keep_of_suffixAtNonMig : ∀ ys l2, suffixAtNonMig ys = some l2 →
    keepFromLastNonMig ys = keepFromLastNonMig l2 := by
  intro ys
  induction ys with
  | nil => intro l2 h; cases h
  | cons y t ih =>
    intro l2 h
    by_cases hy : isNonMigration y
    · simp [suffixAtNonMig, hy] at h
      rw [← h]
    · simp [suffixAtNonMig, hy] at h
      rw [keepFromLastNonMig, if_pos (suffixAtNonMig_any t l2 h)]
      exact ih l2 h

lemma keep_isSuffix : ∀ l, (keepFromLastNonMig l).IsSuffix l := by
  intro l
  induction l with
  | nil => exact List.suffix_rfl
  | cons x xs ih =>
    by_cases hx : xs.any isNonMigration
    · rw [keepFromLastNonMig, if_pos hx]
      exact ih.trans (List.suffix_cons x xs)
    · rw [keepFromLastNonMig, if_neg hx]

lemma keep_of_no_nonMig : ∀ l : List (List Char),
    l.any isNonMigration = false → keepFromLastNonMig l = l := by
  intro l
  induction l with
  | nil => intro _; rfl
  | cons x xs ih =>
    intro h
    simp only [List.any_cons, Bool.or_eq_false_iff] at h
    rw [keepFromLastNonMig, if_neg (by simp [h.2])]

lemma sliceAtNonMig_length : ∀ l l2, sliceAtNonMig l = some l2 → l2.length < l.length := by
  intro l l2 hs
  cases l with
  | nil => cases hs
  | cons x rest =>
    have := suffixAtNonMig_length rest l2 hs
    simp only [List.length_cons]
    omega

lemma pruneGo_stable : ∀ f l, l.length < f → pruneGo f l = pruneGo (l.length + 1) l := by
  intro f
  induction f using Nat.strong_induction_on with
  | _ f ih =>
    intro l hlf
    obtain ⟨g, rfl⟩ : ∃ g, f = g + 1 := ⟨f - 1, by omega⟩
    rw [pruneGo, pruneGo]
    cases hs : sliceAtNonMig l with
    | none => rfl
    | some l2 =>
      have hlen : l2.length < l.length := sliceAtNonMig_length l l2 hs
      show pruneGo g l2 = pruneGo l.length l2
      rw [ih g (by omega) l2 (by omega), ih l.length (by omega) l2 (by omega)]

lemma prune_eq_keep : ∀ n l, l.length ≤ n → pruneMigrations l = keepFromLastNonMig l := by
  intro n
  induction n with
  | zero =>
    intro l h
    have : l = [] := List.length_eq_zero.mp (by omega)
    subst this
    rfl
  | succ m ih =>
    intro l hlen
    rw [pruneMigrations, pruneGo]
    cases hs : sliceAtNonMig l with
    | none =>
      cases l with
      | nil => rfl
      | cons x xs =>
        have hnone : suffixAtNonMig xs = none := hs
        show x :: xs = keepFromLastNonMig (x :: xs)
        rw [keepFromLastNonMig, if_neg (by simp [suffixAtNonMig_none xs hnone])]
    | some l2 =>
      cases l with
      | nil => cases hs
      | cons x xs =>
        have hsx : suffixAtNonMig xs = some l2 := hs
        have hl2 : l2.length ≤ xs.length := suffixAtNonMig_length xs l2 hsx
        show pruneGo (x :: xs).length l2 = keepFromLastNonMig (x :: xs)
        have hstep : pruneGo (x :: xs).length l2 = pruneMigrations l2 := by
          rw [pruneMigrations]
          exact pruneGo_stable (x :: xs).length l2 (by simp only [List.length_cons]; omega)
        rw [hstep, ih l2 (by simp only [List.length_cons] at hlen; omega)]
        rw [keepFromLastNonMig, if_pos (suffixAtNonMig_any xs l2 hsx)]
        exact (keep_of_suffixAtNonMig xs l2 hsx).symm

/-- C3 (amended): on the discovered registration-file list the pruning loop
discards exactly the entries before the last non-migration entry: the
result is the suffix starting at the last non-migration entry, it is a
suffix of the input, and when the list holds no non-migration entry
nothing is discarded at all. -/
theorem C3_prune_to_last_base (l : List (List Char)) :
    pruneMigrations l = keepFromLastNonMig l ∧
    (pruneMigrations l).IsSuffix l ∧
    (l.any isNonMigration = false → pruneMigrations l = l) := by
  have h := prune_eq_keep l.length l (le_refl _)
  exact ⟨h, h ▸ keep_isSuffix l, fun hno => h.trans (keep_of_no_nonMig l hno)⟩

/-- C3 counterexample: a sorted file list whose first entry is already a
non-migration file, followed by a migration file and a later non-migration
file.  The claim would keep the whole list (nothing at or after the first
non-migration entry may be discarded), but the code discards the first two
entries and keeps only the suffix at the last non-migration file. -/
theorem C3_counterexample :
    isNonMigration ("a--1.0.sql".data) = true ∧
    pruneMigrations ["a--1.0.sql".data, "a--1.0--1.1.sql".data, "a--1.1.sql".data] =
      ["a--1.1.sql".data] ∧
    (["a--1.1.sql".data] : List (List Char)) ≠
      ["a--1.0.sql".data, "a--1.0--1.1.sql".data, "a--1.1.sql".data] := by
  refine ⟨by decide, by decide, ?_⟩
  intro h
  cases h

/-! ### Version decoding and ordering lemmas (C4, C10) -/

lemma versions_of_quad (name f : List Char) (q : VerQuad)
    (h : sqlFileToQuad name f = some q) :
    sqlFileToVersions name f =
      Except.ok (encodeVer q.fromMajor q.fromMinor, encodeVer q.toMajor q.toMinor) := by
  unfold sqlFileToQuad at h
  by_cases hcond : hasSuffixCL f dotSql = true ∧ name.length + 2 ≤ f.length
  · rw [if_pos hcond] at h
    unfold sqlFileToVersions
    rw [if_neg (by simp [hcond.1]), if_pos hcond.2, h]
  · rw [if_neg hcond] at h
    cases h

lemma encodeVer_in_range (a b : Int) (ha0 : 0 ≤ a) (ha : a < 256)
    (hb0 : 0 ≤ b) (hb : b < 256) :
    encodeVer a b = a.toNat * 256 + b.toNat := by
  unfold encodeVer toU16
  rw [Int.emod_eq_of_lt ha0 (by omega), Int.emod_eq_of_lt hb0 (by omega)]
  have h1 : a.toNat < 256 := by omega
  have h2 : b.toNat < 256 := by omega
  exact Nat.mod_eq_of_lt (by omega)

lemma cmpOr_cmpNat_lt (a b c d : Nat) :
    cmpOr (cmpNat a b) (cmpNat c d) = Ordering.lt ↔ (a < b ∨ (a = b ∧ c < d)) := by
  unfold cmpOr cmpNat
  split_ifs <;> simp_all

lemma cmpOr_cmpNat_eq (a b c d : Nat) :
    cmpOr (cmpNat a b) (cmpNat c d) = Ordering.eq ↔ (a = b ∧ c = d) := by
  unfold cmpOr cmpNat
  split_ifs <;> simp_all <;> omega

lemma cmpOr_cmpNat_zero_ne_gt (a b : Nat) :
    cmpOr (cmpNat 0 a) (cmpNat 0 b) ≠ Ordering.gt := by
  unfold cmpOr cmpNat
  split_ifs <;> simp_all <;> omega

lemma sqlFileCmp_of_versions (name a b : List Char) (va vb : Nat × Nat)
    (ha : sqlFileToVersions name a = Except.ok va)
    (hb : sqlFileToVersions name b = Except.ok vb) :
    sqlFileCmp name a b = Except.ok (cmpOr (cmpNat va.1 vb.1) (cmpNat va.2 vb.2)) := by
  unfold sqlFileCmp
  rw [ha, hb]
  rfl

/-- C4 (amended): for registration-file names of a fixed extension whose
version components are each below 256, the comparator used by the sort
orders two files by the packed version pair exactly as the lexicographic
order on the quadruple (from-major, from-minor, to-major, to-minor), with
equality exactly on equal quadruples; a single-version file (no double dash
inside its version subsection) decodes its one version as both from and
to. -/
theorem C4_sort_order (name f1 f2 : List Char) (q1 q2 : VerQuad)
    (hq1 : sqlFileToQuad name f1 = some q1) (hq2 : sqlFileToQuad name f2 = some q2)
    (hr1 : inByteRange q1) (hr2 : inByteRange q2) :
    (sqlFileCmp name f1 f2 = Except.ok Ordering.lt ↔ quadLt q1 q2) ∧
    (sqlFileCmp name f1 f2 = Except.ok Ordering.eq ↔ q1 = q2) ∧
    (strIndex (versionSub name f1) dashDash = none →
      q1.fromMajor = q1.toMajor ∧ q1.fromMinor = q1.toMinor) := by
  obtain ⟨a10, a1, b10, b1, c10, c1, d10, d1⟩ := hr1
  obtain ⟨a20, a2, b20, b2, c20, c2, d20, d2⟩ := hr2
  have hv1 := versions_of_quad name f1 q1 hq1
  have hv2 := versions_of_quad name f2 q2 hq2
  have hcmp := sqlFileCmp_of_versions name f1 f2 _ _ hv1 hv2
  rw [encodeVer_in_range _ _ a10 a1 b10 b1, encodeVer_in_range _ _ c10 c1 d10 d1] at hcmp
  rw [encodeVer_in_range _ _ a20 a2 b20 b2, encodeVer_in_range _ _ c20 c2 d20 d2] at hcmp
  refine ⟨?_, ?_, ?_⟩
  · rw [hcmp]
    simp only [Except.ok.injEq]
    rw [cmpOr_cmpNat_lt]
    unfold quadLt
    constructor
    · intro h
      omega
    · intro h
      omega
  · rw [hcmp]
    simp only [Except.ok.injEq]
    rw [cmpOr_cmpNat_eq]
    constructor
    · intro h
      have e1 : q1.fromMajor = q2.fromMajor := by omega
      have e2 : q1.fromMinor = q2.fromMinor := by omega
      have e3 : q1.toMajor = q2.toMajor := by omega
      have e4 : q1.toMinor = q2.toMinor := by omega
      cases q1
      cases q2
      simp_all
    · intro h
      rw [h]
      omega
  · intro hnd
    unfold sqlFileToQuad at hq1
    by_cases hcond : hasSuffixCL f1 dotSql = true ∧ name.length + 2 ≤ f1.length
    · rw [if_pos hcond] at hq1
      unfold quadOfSubsection at hq1
      rw [hnd] at hq1
      dsimp only [] at hq1
      cases hdot : strIndex (versionSub name f1) ['.'] with
      | none =>
        rw [hdot] at hq1
        cases hq1
      | some fs =>
        rw [hdot] at hq1
        dsimp only [] at hq1
        cases ha : goAtoi ((versionSub name f1).take fs) with
        | none =>
          rw [ha] at hq1
          cases hq1
        | some a =>
          cases hb : goAtoi ((versionSub name f1).drop (fs + 1)) with
          | none =>
            rw [ha, hb] at hq1
            cases hq1
          | some b =>
            rw [ha, hb] at hq1
            cases hq1
            exact ⟨rfl, rfl⟩
    · rw [if_neg hcond] at hq1
      cases hq1

/-- C4 counterexample: the claim quantifies over all major.minor integer
versions, but a minor component of 256 or more overflows its byte in the
packed uint16.  The quadruple of a--1.300.sql precedes that of a--2.0.sql
lexicographically, yet the comparator orders a--1.300.sql strictly after
a--2.0.sql, so sorting is not ascending by the quadruple. -/
theorem C4_counterexample :
    sqlFileToQuad ("a".data) ("a--1.300.sql".data) =
      some { fromMajor := 1, fromMinor := 300, toMajor := 1, toMinor := 300 } ∧
    sqlFileToQuad ("a".data) ("a--2.0.sql".data) =
      some { fromMajor := 2, fromMinor := 0, toMajor := 2, toMinor := 0 } ∧
    quadLt { fromMajor := 1, fromMinor := 300, toMajor := 1, toMinor := 300 }
           { fromMajor := 2, fromMinor := 0, toMajor := 2, toMinor := 0 } ∧
    sqlFileCmp ("a".data) ("a--1.300.sql".data) ("a--2.0.sql".data) =
      Except.ok Ordering.gt := by
  refine ⟨by decide, by decide, by decide, ?_⟩
  rfl

/-- C4 witness: two well-formed file names of the extension a with byte
sized components, ordered by the comparator exactly as their quadruples. -/
theorem C4_sort_order_witness :
    sqlFileCmp ("a".data) ("a--1.0.sql".data) ("a--1.0--1.1.sql".data) =
      Except.ok Ordering.lt :=
  (C4_sort_order ("a".data) ("a--1.0.sql".data) ("a--1.0--1.1.sql".data)
      { fromMajor := 1, fromMinor := 0, toMajor := 1, toMinor := 0 }
      { fromMajor := 1, fromMinor := 0, toMajor := 1, toMinor := 1 }
      (by decide) (by decide) (by decide) (by decide)).1.mpr (by decide)

/-- C10 (amended): on every file name that lacks the ".sql" suffix or is at
least as long as the extension name plus the double dash, the decoder is
total: a missing suffix decodes to the zero pair before any slicing, every
parse failure of the version subsection (missing dot separator or
non-integer component) decodes to the zero pair, and a zero-pair file never
compares strictly after any other decodable file, so malformed names sort
no later than every well-formed versioned name.  (Shorter names with the
suffix make the slice in the source panic, so totality needs this domain.) -/
theorem C10_decode_total_on_domain (name f : List Char)
    (hdom : hasSuffixCL f dotSql = false ∨ name.length + 2 ≤ f.length) :
    ∃ v, sqlFileToVersions name f = Except.ok v ∧
      (hasSuffixCL f dotSql = false → v = (0, 0)) ∧
      (quadOfSubsection (versionSub name f) = none → v = (0, 0)) ∧
      (∀ g w, sqlFileToVersions name g = Except.ok w → v = (0, 0) →
        sqlFileCmp name f g ≠ Except.ok Ordering.gt) := by
  have hgt : ∀ v, sqlFileToVersions name f = Except.ok v →
      (∀ g w, sqlFileToVersions name g = Except.ok w → v = (0, 0) →
        sqlFileCmp name f g ≠ Except.ok Ordering.gt) := by
    intro v hv g w hw hz
    rw [hz] at hv
    rw [sqlFileCmp_of_versions name f g (0, 0) w hv hw]
    intro habs
    exact cmpOr_cmpNat_zero_ne_gt w.1 w.2 (Except.ok.inj habs)
  by_cases hsuf : hasSuffixCL f dotSql
  · have hb : name.length + 2 ≤ f.length := by
      rcases hdom with h | h
      · rw [hsuf] at h
        cases h
      · exact h
    cases hq : quadOfSubsection (versionSub name f) with
    | none =>
      have hv : sqlFileToVersions name f = Except.ok (0, 0) := by
        unfold sqlFileToVersions
        rw [if_neg (by simp [hsuf]), if_pos hb, hq]
      exact ⟨(0, 0), hv, fun _ => rfl, fun _ => rfl, hgt (0, 0) hv⟩
    | some q =>
      have hv : sqlFileToVersions name f =
          Except.ok (encodeVer q.fromMajor q.fromMinor, encodeVer q.toMajor q.toMinor) := by
        unfold sqlFileToVersions
        rw [if_neg (by simp [hsuf]), if_pos hb, hq]
      refine ⟨_, hv, ?_, ?_, hgt _ hv⟩
      · intro habs
        rw [habs] at hsuf
        cases hsuf
      · intro habs
        simp [hq] at habs
  · have hv : sqlFileToVersions name f = Except.ok (0, 0) := by
      unfold sqlFileToVersions
      rw [if_pos (by simp [Bool.eq_false_iff.mpr hsuf])]
    exact ⟨(0, 0), hv, fun _ => rfl, fun _ => rfl, hgt (0, 0) hv⟩

/-- C10 counterexample: the decoder is not total on every file name: with
extension name ext, the file name ".sql" carries the suffix but is shorter
than the slice index len(name)+2, so the source slices out of range and
panics instead of returning the zero pair. -/
theorem C10_counterexample :
    sqlFileToVersions ("ext".data) (".sql".data) = Except.error () ∧
    (Except.error () : Except Unit (Nat × Nat)) ≠ Except.ok (0, 0) := by
  refine ⟨rfl, ?_⟩
  intro h
  cases h

/-- C10 witness: a name with no dot in its version subsection decodes to
the zero pair without error. -/
theorem C10_decode_total_on_domain_witness :
    ∃ v, sqlFileToVersions ("ext".data) ("ext--10.sql".data) = Except.ok v ∧
      (hasSuffixCL ("ext--10.sql".data) dotSql = false → v = (0, 0)) ∧
      (quadOfSubsection (versionSub ("ext".data) ("ext--10.sql".data)) = none → v = (0, 0)) ∧
      (∀ g w, sqlFileToVersions ("ext".data) g = Except.ok w → v = (0, 0) →
        sqlFileCmp ("ext".data) ("ext--10.sql".data) g ≠ Except.ok Ordering.gt) :=
  C10_decode_total_on_domain ("ext".data) ("ext--10.sql".data) (Or.inr (by decide))

/-! ### Scanning loop lemmas (C5, C8) -/

lemma findStart_nil : findStart [] = none := by decide

lemma findStart_lt_length : ∀ (s : List Char) i, findStart s = some i → i < s.length := by
  intro s
  induction s with
  | nil =>
    intro i h
    rw [findStart_nil] at h
    cases h
  | cons c t ih =>
    intro i h
    rw [findStart] at h
    by_cases hs : startsCF (c :: t)
    · rw [if_pos hs] at h
      cases h
      exact Nat.succ_pos t.length
    · rw [if_neg hs] at h
      cases hf : findStart t with
      | none =>
        rw [hf] at h
        cases h
      | some j =>
        rw [hf] at h
        have h2 : j + 1 = i := by simpa using h
        have := ih j hf
        simp only [List.length_cons]
        omega

lemma scanGo_succ (fuel : Nat) (s : List Char) :
    scanGo (fuel + 1) s =
      match findStart s with
      | none => []
      | some i =>
        match idxSemi (s.drop i) with
        | none => []
        | some e =>
          (match findSubmatch ((s.drop i).take (e + 1)) with
           | none => []
           | some g => [chooseName g.1 g.2.1 g.2.2]) ++
            scanGo fuel ((s.drop i).drop 6) := rfl

lemma scanGo_stable : ∀ f (s : List Char), s.length < f → scanGo f s = scanGo (s.length + 1) s := by
  intro f
  induction f using Nat.strong_induction_on with
  | _ f ih =>
    intro s hsf
    obtain ⟨g, rfl⟩ : ∃ g, f = g + 1 := ⟨f - 1, by omega⟩
    rw [scanGo_succ g s, scanGo_succ s.length s]
    split
    · rfl
    · rename_i i hfs
      split
      · rfl
      · rename_i e hsem
        have hlt : ((s.drop i).drop 6).length < s.length := by
          have := findStart_lt_length s i hfs
          simp only [List.length_drop]
          omega
        congr 1
        rw [ih g (by omega) _ (by omega), ih s.length (by omega) _ hlt]

/-- C8: when a span matching the start of a CREATE FUNCTION statement has a
bounding semicolon but the full capture expression does not match the
bounded statement, the scanner records nothing for it, raises no error, and
resumes six characters past the span start, so the names extracted from the
whole file are exactly those extracted from the remainder. -/
theorem C8_skip_unmatched (s : List Char) (i e : Nat)
    (hst : findStart s = some i)
    (hsem : idxSemi (s.drop i) = some e)
    (hcap : findSubmatch ((s.drop i).take (e + 1)) = none) :
    scanNames s = scanNames ((s.drop i).drop 6) := by
  unfold scanNames
  rw [scanGo_succ s.length s, hst]
  have hne : ((s.drop i).drop 6).length < s.length := by
    have := findStart_lt_length s i hst
    simp only [List.length_drop]
    omega
  show (match idxSemi (s.drop i) with
        | none => []
        | some e =>
          (match findSubmatch ((s.drop i).take (e + 1)) with
           | none => []
           | some g => [chooseName g.1 g.2.1 g.2.2]) ++
            scanGo s.length ((s.drop i).drop 6)) = _
  rw [hsem]
  show (match findSubmatch ((s.drop i).take (e + 1)) with
        | none => []
        | some g => [chooseName g.1 g.2.1 g.2.2]) ++
          scanGo s.length ((s.drop i).drop 6) = _
  rw [hcap, List.nil_append, scanGo_stable s.length _ hne]

/-- C8 witness: a file whose first CREATE FUNCTION span is ill-formed (no
parameter list before the bounding semicolon) scans to the same names as
its remainder, where the later well-formed declaration is still found. -/
theorem C8_skip_unmatched_witness :
    scanNames fileIllFormed = scanNames ((fileIllFormed.drop 0).drop 6) :=
  C8_skip_unmatched fileIllFormed 0 16 (by decide) (by decide) (by decide)

/-- Corroboration for the C8 scenario: the ill-formed span is skipped and
the later declaration in the same file is still extracted. -/
theorem scan_resumes_example : scanNames fileIllFormed = ["bar".data] := by decide

/-! ### Name accumulation lemmas (C5) -/

lemma mem_insertName (acc : List (List Char)) (n x : List Char) :
    x ∈ insertName acc n ↔ x ∈ acc ∨ x = n := by
  unfold insertName
  by_cases h : n ∈ acc
  · rw [if_pos h]
    constructor
    · exact Or.inl
    · rintro (hx | rfl)
      · exact hx
      · exact h
  · rw [if_neg h]
    simp

lemma mem_foldl_insertName : ∀ (l acc : List (List Char)) x,
    x ∈ l.foldl insertName acc ↔ x ∈ acc ∨ x ∈ l := by
  intro l
  induction l with
  | nil => simp
  | cons a t ih =>
    intro acc x
    rw [List.foldl_cons, ih, mem_insertName]
    simp only [List.mem_cons]
    tauto

lemma nodup_insertName (acc : List (List Char)) (n : List Char) (h : acc.Nodup) :
    (insertName acc n).Nodup := by
  unfold insertName
  by_cases hn : n ∈ acc
  · rw [if_pos hn]
    exact h
  · rw [if_neg hn]
    simp [List.nodup_append, h, hn]

lemma nodup_foldl_insertName : ∀ (l acc : List (List Char)), acc.Nodup →
    (l.foldl insertName acc).Nodup := by
  intro l
  induction l with
  | nil => intro acc h; exact h
  | cons a t ih =>
    intro acc h
    rw [List.foldl_cons]
    exact ih _ (nodup_insertName acc a h)

/-- C5: the names LoadSQLFunctionNames yields for a collection of
registration files form a strictly sorted (hence deduplicated) list whose
members are exactly the names the per-file scan extracts from some file, so
duplicate declarations across files collapse to one entry; for each matched
declaration the scan records the explicit C-symbol capture when one is
nonempty and the SQL-level name otherwise. -/
theorem C5_function_names (files : List (List Char)) :
    (loadSQLFunctionNames files).Sorted (· < ·) ∧
    (loadSQLFunctionNames files).Nodup ∧
    (∀ x, x ∈ loadSQLFunctionNames files ↔ ∃ f ∈ files, x ∈ scanNames f) := by
  have hnd : (collectNames files).Nodup :=
    nodup_foldl_insertName _ [] List.nodup_nil
  have hnd2 : (loadSQLFunctionNames files).Nodup :=
    ((List.perm_insertionSort _ _).nodup_iff).mpr hnd
  have hsorted : (loadSQLFunctionNames files).Sorted (· ≤ ·) :=
    List.sorted_insertionSort _ _
  refine ⟨?_, hnd2, ?_⟩
  · exact List.Pairwise.imp₂ (fun a b hle hne => lt_of_le_of_ne hle hne) hsorted hnd2
  · intro x
    unfold loadSQLFunctionNames sortStr
    rw [List.mem_insertionSort]
    unfold collectNames
    rw [mem_foldl_insertName]
    simp [List.mem_flatten]

/-- Corroboration for the extraction rule: a declaration with an explicit
C-symbol argument yields that symbol. -/
theorem scan_explicit_symbol_example : scanNames fileExplicit = ["c_foo".data] := by decide

/-- Corroboration for the extraction rule: a declaration without an
explicit symbol yields the SQL-level function name. -/
theorem scan_default_name_example : scanNames fileDefault = ["bar".data] := by decide

/-- Corroboration for deduplication and sorting: a duplicate file collapses
to one entry and the result is in ascending order. -/
theorem load_dedup_sorted_example :
    loadSQLFunctionNames [fileExplicit, fileDefault, fileExplicit] =
      ["bar".data, "c_foo".data] := by decide

end PgExt
